import Mathlib

/-!
Verification of `client.py` (Google Drive folder uploader).

The Python source is shallowly embedded: the mutable remote Drive is a
`DriveState` threaded explicitly, Python strings become `String` (with the
slash-handling primitives `str.strip("/")` / `str.split("/")` modelled on
`List Char`), the Redis set used as the shared work queue becomes a
`Finset String`, and fallible/raising code paths return explicit outcome
types.  Definitions keep the source's names where Lean permits.
-/

namespace GDriveUploader

/-! ## String primitives: Python `str.strip("/")` and `str.split("/")` -/

/-- Python `s.strip("/")` on the character list: remove every leading and
trailing `'/'` character. -/
def stripSlashes (l : List Char) : List Char :=
  ((l.dropWhile (· == '/')).reverse.dropWhile (· == '/')).reverse

/-- Python `s.split("/")` (single-character separator): splits at every
`'/'`, keeping empty pieces; the empty string yields `[""]`. -/
def splitSlash : List Char → List (List Char)
  | [] => [[]]
  | c :: cs =>
    if c == '/' then [] :: splitSlash cs
    else
      match splitSlash cs with
      | [] => [[c]]
      | seg :: segs => (c :: seg) :: segs

/-- `folder_path.strip("/").split("/")` from `get_folder_id` (client.py line 72). -/
def parsePath (s : String) : List String :=
  (splitSlash (stripSlashes s.data)).map String.mk

/-- No two consecutive `'/'` characters occur in the list. -/
def noDoubleSlash : List Char → Bool
  | c1 :: c2 :: rest => !(c1 == '/' && c2 == '/') && noDoubleSlash (c2 :: rest)
  | _ => true

/-! ## The remote Drive model -/

/-- One remote file/folder object: the metadata fields of a
`GoogleDriveFile` that client.py reads (`id`, `title`, the single parent
id from `parents`, `trashed`, and whether `mimeType` is the folder type). -/
structure GFile where
  id : Nat
  title : String
  parent : Nat
  trashed : Bool
  isFolder : Bool
deriving DecidableEq, Repr

/-- The remote Drive: the list of file objects (listing order = list
order) and the next fresh identifier the server will assign.  The root
folder is the distinguished id `rootId` and is not itself a `GFile`. -/
structure DriveState where
  files : List GFile
  next : Nat
deriving DecidableEq, Repr

/-- The identifier `'root'` of the Drive root. -/
def rootId : Nat := 0

/-- A Drive with no files; fresh ids start at 1. -/
def emptyDrive : DriveState := ⟨[], 1⟩

/-- The query `'{parent_folder_id}' in parents and trashed=false` of
`drive_client.ListFile` (client.py lines 81-84): the non-trashed direct
children of a folder, in listing order.  Note: no folder-type filter. -/
def ListFile (s : DriveState) (parent_folder_id : Nat) : List GFile :=
  s.files.filter (fun f => f.parent == parent_folder_id && !f.trashed)

/-- `create_gdrive_folder` (client.py lines 52-67): upload a new folder
object with the given title under the given parent; the server assigns
the next fresh id.  Returns the new folder's id and the new Drive state. -/
def create_gdrive_folder (folder_name : String) (parent_folder_id : Nat)
    (s : DriveState) : Nat × DriveState :=
  (s.next,
   ⟨s.files ++ [⟨s.next, folder_name, parent_folder_id, false, true⟩], s.next + 1⟩)

/-- `search_file_tree` (client.py lines 76-108), failure-free runs: walk
the remaining segments left to right; at each segment list the current
parent's children, return the first child whose `title` equals the
segment if the segment equals `dst_folder_name`, descend into it
otherwise; when no child matches, create the folder and do the same.
Returns `none` when the segment list is empty (Python returns `None`). -/
def search_file_tree (dst_folder_name : String) :
    List String → Nat → DriveState → Option (Nat × DriveState)
  | [], _, _ => none
  | folder_name :: rest, parent_folder_id, s =>
    match (ListFile s parent_folder_id).find? (fun f => f.title == folder_name) with
    | some f =>
      if folder_name == dst_folder_name then some (f.id, s)
      else search_file_tree dst_folder_name rest f.id s
    | none =>
      let r := create_gdrive_folder folder_name parent_folder_id s
      if folder_name == dst_folder_name then some (r.1, r.2)
      else search_file_tree dst_folder_name rest r.1 r.2

/-- `get_folder_id` (client.py lines 71-110): parse the destination path,
take the last segment as `dst_folder_name`, and search from `'root'`. -/
def get_folder_id (folder_path : String) (s : DriveState) :
    Option (Nat × DriveState) :=
  let segs := parsePath folder_path
  search_file_tree (segs.getLastD "") segs rootId s

/-- Reference walk following the spec's words (§4.1): visit EVERY
segment left to right, find-or-create at each one, and return the folder
reached at the final segment.  Used to compare `search_file_tree`'s
early-stop behaviour against the spec's description. -/
def specWalk : List String → Nat → DriveState → Nat × DriveState
  | [], parent, s => (parent, s)
  | folder_name :: rest, parent, s =>
    match (ListFile s parent).find? (fun f => f.title == folder_name) with
    | some f => specWalk rest f.id s
    | none =>
      let r := create_gdrive_folder folder_name parent s
      specWalk rest r.1 r.2

/-- Spec-side resolve: parse, then walk every segment from the root. -/
def specResolve (folder_path : String) (s : DriveState) : Nat × DriveState :=
  specWalk (parsePath folder_path) rootId s

/-! ## Parsing lemmas -/

/-- `splitSlash` never returns the empty list of segments. -/
theorem splitSlash_ne_nil : ∀ l : List Char, splitSlash l ≠ []
  | [] => by simp [splitSlash]
  | c :: cs => by
    simp only [splitSlash]
    split
    · simp
    · match h : splitSlash cs with
      | [] => simp
      | seg :: segs => simp

/-- The first element surviving `dropWhile p` falsifies `p`. -/
theorem head?_dropWhile_false {p : Char → Bool} :
    ∀ (l : List Char) (a : Char), (l.dropWhile p).head? = some a → p a = false
  | [], a => by simp [List.dropWhile]
  | c :: cs, a => by
    simp only [List.dropWhile]
    split
    · exact head?_dropWhile_false cs a
    · intro h
      obtain rfl : c = a := by simpa using h
      simp_all

/-- `dropWhile` only removes a prefix, so a non-empty result keeps the
original last element. -/
theorem getLast?_dropWhile {p : Char → Bool} :
    ∀ l : List Char, l.dropWhile p ≠ [] → (l.dropWhile p).getLast? = l.getLast?
  | [], h => by simp [List.dropWhile] at h
  | c :: cs, h => by
    by_cases hc : p c = true
    · have hd : (c :: cs).dropWhile p = cs.dropWhile p := by
        simp [List.dropWhile, hc]
      rw [hd] at h ⊢
      match cs, h with
      | d :: ds, h =>
        rw [getLast?_dropWhile (d :: ds) h, List.getLast?_cons_cons]
    · simp [List.dropWhile, hc]

/-- The stripped path never starts with a slash. -/
theorem stripSlashes_head (l : List Char) :
    (stripSlashes l).head? ≠ some '/' := by
  unfold stripSlashes
  rw [List.head?_reverse]
  by_cases hX : ((l.dropWhile (· == '/')).reverse.dropWhile (· == '/')) = []
  · simp [hX]
  · rw [getLast?_dropWhile _ hX, List.getLast?_reverse]
    intro h
    have := head?_dropWhile_false (p := (· == '/')) l '/' h
    simp at this

/-- The stripped path never ends with a slash. -/
theorem stripSlashes_getLast (l : List Char) :
    (stripSlashes l).getLast? ≠ some '/' := by
  unfold stripSlashes
  rw [List.getLast?_reverse]
  intro h
  have := head?_dropWhile_false (p := (· == '/'))
    ((l.dropWhile (· == '/')).reverse) '/' h
  simp at this

/-- One unfolding step of `splitSlash` at a non-slash head. -/
theorem splitSlash_cons_ne (c : Char) (cs : List Char) (hc : ¬(c == '/') = true)
    (seg : List Char) (segs : List (List Char)) (h : splitSlash cs = seg :: segs) :
    splitSlash (c :: cs) = (c :: seg) :: segs := by
  rw [show splitSlash (c :: cs) =
      (if (c == '/') = true then [] :: splitSlash cs
       else match splitSlash cs with
            | [] => [[c]]
            | seg :: segs => (c :: seg) :: segs) from rfl,
    if_neg hc, h]

/-- On a non-empty list that neither starts nor ends with a slash and has
no doubled slash, every `splitSlash` segment is non-empty. -/
theorem splitSlash_all_ne_nil :
    ∀ l : List Char, l ≠ [] → l.head? ≠ some '/' → l.getLast? ≠ some '/' →
      noDoubleSlash l = true → ∀ seg ∈ splitSlash l, seg ≠ []
  | [], h0, _, _, _ => absurd rfl h0
  | [c], _, h1, _, _ => by
    have hc : ¬(c == '/') = true := by simpa using h1
    intro seg hseg
    simp [splitSlash, hc] at hseg
    simp [hseg]
  | c1 :: c2 :: rest, _, h1, h2, h3 => by
    have hc1 : ¬(c1 == '/') = true := by simpa using h1
    by_cases hc2 : c2 = '/'
    · subst hc2
      match rest, h2, h3 with
      | [], h2, h3 => simp at h2
      | r1 :: rest2, h2, h3 =>
        have h3d : (c1 == '/' && '/' == '/') = false ∧
            ('/' == '/' && r1 == '/') = false ∧
            noDoubleSlash (r1 :: rest2) = true := by
          simpa only [noDoubleSlash, Bool.and_eq_true, Bool.not_eq_true',
            and_assoc] using h3
        have hr1 : r1 ≠ '/' := by simpa using h3d.2.1
        have hrec := splitSlash_all_ne_nil (r1 :: rest2) (by simp)
          (by simpa using hr1)
          (by rw [List.getLast?_cons_cons, List.getLast?_cons_cons] at h2; exact h2)
          h3d.2.2
        have hsplit : splitSlash (c1 :: '/' :: r1 :: rest2) =
            [c1] :: splitSlash (r1 :: rest2) := by
          simp [splitSlash, hc1]
        intro seg hseg
        rw [hsplit] at hseg
        rcases List.mem_cons.mp hseg with h | h
        · subst h; simp
        · exact hrec seg h
    · have hne := splitSlash_ne_nil (c2 :: rest)
      obtain ⟨seg0, segs0, heq⟩ := List.exists_cons_of_ne_nil hne
      have hrec := splitSlash_all_ne_nil (c2 :: rest) (by simp)
        (by simpa using hc2)
        (by rw [List.getLast?_cons_cons] at h2; exact h2)
        (by
          have : noDoubleSlash (c1 :: c2 :: rest) =
              (!(c1 == '/' && c2 == '/') && noDoubleSlash (c2 :: rest)) := by
            simp [noDoubleSlash]
          rw [this, Bool.and_eq_true] at h3
          exact h3.2)
      have hsplit : splitSlash (c1 :: c2 :: rest) = (c1 :: seg0) :: segs0 :=
        splitSlash_cons_ne c1 (c2 :: rest) hc1 seg0 segs0 heq
      intro seg hseg
      rw [hsplit] at hseg
      rcases List.mem_cons.mp hseg with h | h
      · subst h; simp
      · exact hrec seg (heq ▸ List.mem_cons_of_mem seg0 h)

/-- Parsing never yields the empty segment list (Python `split` always
returns at least one piece). -/
theorem parsePath_ne_nil (s : String) : parsePath s ≠ [] := by
  intro h
  exact splitSlash_ne_nil (stripSlashes s.data) (List.map_eq_nil_iff.mp h)

/-- C8, counterexample: the input `"A//B"` is neither empty nor a bare
`"/"`, yet parsing yields the empty segment `""` between `"A"` and
`"B"`, refuting "contains no empty segment". -/
theorem parsePath_double_slash_cex :
    parsePath "A//B" = ["A", "", "B"] ∧ "" ∈ parsePath "A//B" ∧
      "A//B" ≠ "" ∧ "A//B" ≠ "/" := by decide

/-- C8 (amended): parsing strips leading and trailing slashes and splits
on every slash; the resulting segment sequence is always non-empty, and
whenever the stripped input is non-empty and has no two consecutive
slashes, every segment is non-empty. -/
theorem parsePath_segments (s : String) :
    parsePath s ≠ [] ∧
      (stripSlashes s.data ≠ [] → noDoubleSlash (stripSlashes s.data) = true →
        ∀ seg ∈ parsePath s, seg ≠ "") := by
  refine ⟨parsePath_ne_nil s, ?_⟩
  intro hne hnd seg hseg
  obtain ⟨l, hl, rfl⟩ := List.mem_map.mp hseg
  have hlne : l ≠ [] := splitSlash_all_ne_nil _ hne (stripSlashes_head s.data)
    (stripSlashes_getLast s.data) hnd l hl
  intro hcon
  exact hlne (by simpa using congrArg String.data hcon)

/-- C8 witness: at the concrete input `"/A/B/"` the hypotheses hold and
every parsed segment is non-empty. -/
theorem parsePath_segments_witness :
    stripSlashes "/A/B/".data ≠ [] ∧
      noDoubleSlash (stripSlashes "/A/B/".data) = true ∧
      ∀ seg ∈ parsePath "/A/B/", seg ≠ "" :=
  ⟨by decide, by decide, (parsePath_segments "/A/B/").2 (by decide) (by decide)⟩

/-- C5: resolving `"A/B/C"` against an empty root creates exactly the
three folders A (id 1, under root), B (id 2, under A), C (id 3, under B)
and returns C's id; resolving `"A/B/D"` afterwards reuses A and B and
creates only D (id 4, under B). -/
theorem get_folder_id_tree_creation :
    get_folder_id "A/B/C" emptyDrive =
      some (3, ⟨[⟨1, "A", 0, false, true⟩, ⟨2, "B", 1, false, true⟩,
                 ⟨3, "C", 2, false, true⟩], 4⟩) ∧
    get_folder_id "A/B/D"
        ⟨[⟨1, "A", 0, false, true⟩, ⟨2, "B", 1, false, true⟩,
          ⟨3, "C", 2, false, true⟩], 4⟩ =
      some (4, ⟨[⟨1, "A", 0, false, true⟩, ⟨2, "B", 1, false, true⟩,
                 ⟨3, "C", 2, false, true⟩, ⟨4, "D", 2, false, true⟩], 5⟩) := by
  decide

/-- C1, counterexample: on the path `"A/A"` against a Drive that already
has folder A (id 1) under root and folder A (id 2) under it,
`get_folder_id` returns id 1 — the EARLIER segment that shares the final
segment's display name — whereas the folder reached at the final segment
(the spec-side full walk) is id 2. -/
theorem get_folder_id_early_stop_cex :
    get_folder_id "A/A" ⟨[⟨1, "A", 0, false, true⟩, ⟨2, "A", 1, false, true⟩], 3⟩ =
      some (1, ⟨[⟨1, "A", 0, false, true⟩, ⟨2, "A", 1, false, true⟩], 3⟩) ∧
    specResolve "A/A" ⟨[⟨1, "A", 0, false, true⟩, ⟨2, "A", 1, false, true⟩], 3⟩ =
      (2, ⟨[⟨1, "A", 0, false, true⟩, ⟨2, "A", 1, false, true⟩], 3⟩) ∧
    (1 : Nat) ≠ 2 := by decide

/-- `search_file_tree` agrees with the spec-side full walk whenever no
segment before the last shares the last segment's name. -/
theorem search_eq_specWalk (dst : String) :
    ∀ segs : List String, segs ≠ [] → segs.getLastD "" = dst →
      (∀ x ∈ segs.dropLast, x ≠ dst) →
      ∀ (p : Nat) (s : DriveState),
        search_file_tree dst segs p s = some (specWalk segs p s) := by
  intro segs
  induction segs with
  | nil => intro h; exact absurd rfl h
  | cons a tail ih =>
    intro _ hlast hdrop p s
    cases tail with
    | nil =>
      have ha : a = dst := by simpa using hlast
      subst ha
      cases hfind : (ListFile s p).find? (fun f => f.title == a) with
      | some f => simp [search_file_tree, specWalk, hfind]
      | none => simp [search_file_tree, specWalk, hfind]
    | cons b tail2 =>
      have hadl : (a :: b :: tail2).dropLast = a :: (b :: tail2).dropLast := rfl
      have hne : a ≠ dst := hdrop a (by rw [hadl]; exact List.mem_cons_self a _)
      have hnb : (a == dst) = false := by simpa using hne
      have hlast2 : (b :: tail2).getLastD "" = dst := by
        rw [List.getLastD_eq_getLast?] at hlast ⊢
        rw [List.getLast?_cons_cons] at hlast
        exact hlast
      have hdrop2 : ∀ x ∈ (b :: tail2).dropLast, x ≠ dst := by
        intro x hx
        exact hdrop x (by rw [hadl]; exact List.mem_cons_of_mem a hx)
      cases hfind : (ListFile s p).find? (fun f => f.title == a) with
      | some f =>
        simp only [search_file_tree, specWalk, hfind, hnb, if_false,
          Bool.false_eq_true]
        exact ih (by simp) hlast2 hdrop2 f.id s
      | none =>
        simp only [search_file_tree, specWalk, hfind, hnb, if_false,
          Bool.false_eq_true]
        exact ih (by simp) hlast2 hdrop2 _ _

/-- C1 (amended): resolution walks the segments strictly left to right,
one at a time, and returns the identifier of the FIRST segment whose
name equals the final segment's display name; when no earlier segment
shares that name — the hypothesis below — this is exactly the folder
reached at the final segment, i.e. `get_folder_id` coincides with the
spec-side full walk `specResolve`. -/
theorem get_folder_id_eq_specResolve (folder_path : String) (s : DriveState)
    (h : ∀ x ∈ (parsePath folder_path).dropLast,
      x ≠ (parsePath folder_path).getLastD "") :
    get_folder_id folder_path s = some (specResolve folder_path s) :=
  search_eq_specWalk _ (parsePath folder_path) (parsePath_ne_nil folder_path)
    rfl h rootId s

/-- C1 witness: on the concrete path `"A/B"` from an empty Drive the
hypothesis holds and resolution equals the spec-side walk. -/
theorem get_folder_id_eq_specResolve_witness :
    (∀ x ∈ (parsePath "A/B").dropLast, x ≠ (parsePath "A/B").getLastD "") ∧
      get_folder_id "A/B" emptyDrive = some (specResolve "A/B" emptyDrive) :=
  ⟨by decide, get_folder_id_eq_specResolve "A/B" emptyDrive (by decide)⟩

/-! ## C4: the resolver never inspects the folder type -/

/-- C4, counterexample: the Drive's only child of root named `"A"` is a
plain file (`isFolder = false`), yet resolving `"A"` returns its id 1
and creates nothing — the resolver does not require folder type, and
does not create a new folder when a non-folder child matches by name. -/
theorem get_folder_id_type_blind_cex :
    (⟨1, "A", 0, false, false⟩ : GFile).isFolder = false ∧
    get_folder_id "A" ⟨[⟨1, "A", 0, false, false⟩], 2⟩ =
      some (1, ⟨[⟨1, "A", 0, false, false⟩], 2⟩) := by decide

/-- Forget a file object's folder/file type, keeping the fields the
resolver's listing and matching actually read. -/
def dropType (f : GFile) : Nat × String × Nat × Bool :=
  (f.id, f.title, f.parent, f.trashed)

/-- A Drive state with every object's folder/file type forgotten. -/
def typeErased (s : DriveState) : List (Nat × String × Nat × Bool) × Nat :=
  (s.files.map dropType, s.next)

/-- Overwrite every object's `isFolder` flag according to `g`. -/
def setTypes (g : Nat → Bool) (s : DriveState) : DriveState :=
  ⟨s.files.map (fun f => { f with isFolder := g f.id }), s.next⟩

/-- The children listing is type-blind: states equal up to folder type
list the same children up to folder type. -/
theorem ListFile_typeErased {s t : DriveState} (h : typeErased s = typeErased t)
    (p : Nat) : (ListFile s p).map dropType = (ListFile t p).map dropType := by
  have hf : s.files.map dropType = t.files.map dropType :=
    congrArg Prod.fst h
  have key : ∀ u : DriveState,
      (ListFile u p).map dropType =
        (u.files.map dropType).filter (fun x => x.2.2.1 == p && !x.2.2.2) := by
    intro u
    rw [List.filter_map]
    rfl
  rw [key s, key t, hf]

/-- `search_file_tree` is type-blind: on states equal up to folder type
it returns the same folder id and final states equal up to folder type. -/
theorem search_typeErased (dst : String) :
    ∀ (segs : List String) (p : Nat) (s t : DriveState),
      typeErased s = typeErased t →
      (search_file_tree dst segs p s).map (fun r => (r.1, typeErased r.2)) =
      (search_file_tree dst segs p t).map (fun r => (r.1, typeErased r.2)) := by
  intro segs
  induction segs with
  | nil => intro p s t h; rfl
  | cons a tail ih =>
    intro p s t h
    obtain ⟨sf, sn⟩ := s
    obtain ⟨tf, tn⟩ := t
    have hn : sn = tn := congrArg Prod.snd h
    subst hn
    have hfl : sf.map dropType = tf.map dropType := congrArg Prod.fst h
    have hfind : ((ListFile ⟨sf, sn⟩ p).find? (fun f => f.title == a)).map dropType =
        ((ListFile ⟨tf, sn⟩ p).find? (fun f => f.title == a)).map dropType := by
      have hs := List.find?_map (f := dropType) (p := fun x => x.2.1 == a)
        (ListFile ⟨sf, sn⟩ p)
      have ht := List.find?_map (f := dropType) (p := fun x => x.2.1 == a)
        (ListFile ⟨tf, sn⟩ p)
      have hmid : ((ListFile ⟨sf, sn⟩ p).map dropType).find? (fun x => x.2.1 == a) =
          ((ListFile ⟨tf, sn⟩ p).map dropType).find? (fun x => x.2.1 == a) := by
        rw [ListFile_typeErased h]
      rw [hs, ht] at hmid
      exact hmid
    cases hfs : (ListFile ⟨sf, sn⟩ p).find? (fun f => f.title == a) with
    | none =>
      cases hft : (ListFile ⟨tf, sn⟩ p).find? (fun f => f.title == a) with
      | some g => rw [hfs, hft] at hfind; simp at hfind
      | none =>
        have hcreated :
            typeErased ⟨sf ++ [(⟨sn, a, p, false, true⟩ : GFile)], sn + 1⟩ =
            typeErased ⟨tf ++ [(⟨sn, a, p, false, true⟩ : GFile)], sn + 1⟩ := by
          show ((sf ++ [(⟨sn, a, p, false, true⟩ : GFile)]).map dropType, sn + 1) =
            ((tf ++ [(⟨sn, a, p, false, true⟩ : GFile)]).map dropType, sn + 1)
          rw [List.map_append, List.map_append, hfl]
        simp only [search_file_tree, hfs, hft, create_gdrive_folder]
        by_cases hdst : (a == dst) = true
        · rw [if_pos hdst, if_pos hdst]
          simp only [Option.map_some']
          rw [hcreated]
        · rw [if_neg hdst, if_neg hdst]
          exact ih _ _ _ hcreated
    | some fs =>
      cases hft : (ListFile ⟨tf, sn⟩ p).find? (fun f => f.title == a) with
      | none => rw [hfs, hft] at hfind; simp at hfind
      | some ft =>
        rw [hfs, hft] at hfind
        simp only [Option.map_some', Option.some.injEq] at hfind
        have hid : fs.id = ft.id := congrArg Prod.fst hfind
        simp only [search_file_tree, hfs, hft]
        by_cases hdst : (a == dst) = true
        · rw [if_pos hdst, if_pos hdst]
          simp only [Option.map_some']
          rw [hid, h]
        · rw [if_neg hdst, if_neg hdst]
          rw [hid]
          exact ih _ _ _ h

/-- C4 (amended): at each segment the resolver matches children by
display name only — the folder/file type plays no role.  Formally,
resolution from a state with arbitrarily rewritten `isFolder` flags
returns the same folder id and the same final state up to those flags. -/
theorem get_folder_id_type_blind (g : Nat → Bool) (folder_path : String)
    (s : DriveState) :
    (get_folder_id folder_path (setTypes g s)).map (fun r => (r.1, typeErased r.2)) =
    (get_folder_id folder_path s).map (fun r => (r.1, typeErased r.2)) := by
  apply search_typeErased
  simp only [typeErased, setTypes, List.map_map]
  rfl

/-! ## C6: idempotent resolution -/

/-- A successful `find?` on a prefix is the `find?` of the whole list. -/
theorem find?_append_some {α} {p : α → Bool} {l1 l2 : List α} {c : α}
    (h : l1.find? p = some c) : (l1 ++ l2).find? p = some c := by
  rw [List.find?_append, h]; rfl

/-- A failed `find?` on a prefix defers to the suffix. -/
theorem find?_append_none {α} {p : α → Bool} {l1 l2 : List α}
    (h : l1.find? p = none) : (l1 ++ l2).find? p = l2.find? p := by
  rw [List.find?_append, h]; rfl

/-- A successful resolution only appends files to the Drive, and replaying
the very same search on the resulting state returns the same folder id
and leaves the state untouched. -/
theorem search_file_tree_idem (dst : String) :
    ∀ (segs : List String) (p : Nat) (s : DriveState) (fid : Nat) (s' : DriveState),
      search_file_tree dst segs p s = some (fid, s') →
      (∃ new, s'.files = s.files ++ new) ∧
        search_file_tree dst segs p s' = some (fid, s') := by
  intro segs
  induction segs with
  | nil => intro p s fid s' h; exact absurd h (by simp [search_file_tree])
  | cons a tail ih =>
    intro p s fid s' h
    cases hfs : (ListFile s p).find? (fun f => f.title == a) with
    | some f =>
      by_cases hdst : (a == dst) = true
      · simp only [search_file_tree, hfs] at h
        rw [if_pos hdst] at h
        have hinj := Option.some.inj h
        obtain rfl : fid = f.id := (congrArg Prod.fst hinj).symm
        obtain rfl : s' = s := (congrArg Prod.snd hinj).symm
        refine ⟨⟨[], by simp⟩, ?_⟩
        simp only [search_file_tree, hfs]
        rw [if_pos hdst]
      · simp only [search_file_tree, hfs] at h
        rw [if_neg hdst] at h
        obtain ⟨⟨new, hnew⟩, hsecond⟩ := ih f.id s fid s' h
        refine ⟨⟨new, hnew⟩, ?_⟩
        have hfind2 : (ListFile s' p).find? (fun f => f.title == a) = some f := by
          show (s'.files.filter _).find? _ = some f
          rw [hnew, List.filter_append]
          exact find?_append_some hfs
        simp only [search_file_tree, hfind2]
        rw [if_neg hdst]
        exact hsecond
    | none =>
      by_cases hdst : (a == dst) = true
      · simp only [search_file_tree, hfs, create_gdrive_folder] at h
        rw [if_pos hdst] at h
        have hinj := Option.some.inj h
        obtain rfl : fid = s.next := (congrArg Prod.fst hinj).symm
        obtain rfl : s' = ⟨s.files ++ [⟨s.next, a, p, false, true⟩], s.next + 1⟩ :=
          (congrArg Prod.snd hinj).symm
        refine ⟨⟨[⟨s.next, a, p, false, true⟩], rfl⟩, ?_⟩
        have hfind2 :
            (ListFile ⟨s.files ++ [⟨s.next, a, p, false, true⟩], s.next + 1⟩ p).find?
              (fun f => f.title == a) = some ⟨s.next, a, p, false, true⟩ := by
          have hfs2 : ((s.files.filter (fun f => f.parent == p && !f.trashed)).find?
              (fun f => f.title == a)) = none := hfs
          show ((s.files ++ [(⟨s.next, a, p, false, true⟩ : GFile)]).filter _).find? _ =
            some ⟨s.next, a, p, false, true⟩
          rw [List.filter_append, find?_append_none hfs2]
          simp [List.filter]
        simp only [search_file_tree, hfind2]
        rw [if_pos hdst]
      · simp only [search_file_tree, hfs, create_gdrive_folder] at h
        rw [if_neg hdst] at h
        obtain ⟨⟨new2, hnew2⟩, hsecond⟩ := ih _ _ _ _ h
        have hfiles : s'.files = s.files ++ ([⟨s.next, a, p, false, true⟩] ++ new2) := by
          rw [← List.append_assoc]
          exact hnew2
        refine ⟨⟨[⟨s.next, a, p, false, true⟩] ++ new2, hfiles⟩, ?_⟩
        have hfind2 : (ListFile s' p).find? (fun f => f.title == a) =
            some ⟨s.next, a, p, false, true⟩ := by
          have hfs2 : ((s.files.filter (fun f => f.parent == p && !f.trashed)).find?
              (fun f => f.title == a)) = none := hfs
          show (s'.files.filter _).find? _ = some ⟨s.next, a, p, false, true⟩
          rw [hfiles, List.filter_append, find?_append_none hfs2, List.filter_append]
          have : ([(⟨s.next, a, p, false, true⟩ : GFile)].filter
              (fun f => f.parent == p && !f.trashed)) = [⟨s.next, a, p, false, true⟩] := by
            simp [List.filter]
          rw [this]
          exact List.find?_cons_of_pos _ (by simp)
        simp only [search_file_tree, hfind2]
        rw [if_neg hdst]
        exact hsecond

/-- C6: resolving the same destination path twice, with no intervening
remote mutation and no failures, returns the same folder identifier both
times, and the second call leaves the Drive unchanged (creates nothing). -/
theorem get_folder_id_idem (folder_path : String) (s : DriveState) (fid : Nat)
    (s' : DriveState) (h : get_folder_id folder_path s = some (fid, s')) :
    get_folder_id folder_path s' = some (fid, s') := by
  unfold get_folder_id at h ⊢
  exact (search_file_tree_idem _ _ _ _ _ _ h).2

/-- C6 witness: resolving `"A"` on an empty Drive creates folder A (id 1);
replaying the call on the resulting state returns id 1 again and
changes nothing. -/
theorem get_folder_id_idem_witness :
    get_folder_id "A" emptyDrive = some (1, ⟨[⟨1, "A", 0, false, true⟩], 2⟩) ∧
    get_folder_id "A" ⟨[⟨1, "A", 0, false, true⟩], 2⟩ =
      some (1, ⟨[⟨1, "A", 0, false, true⟩], 2⟩) :=
  ⟨by decide, get_folder_id_idem "A" emptyDrive 1 _ (by decide)⟩

/-! ## C7: the shared Redis work queue

The queue drained by `upload_files` (client.py lines 132-142) is a Redis
set; workers call `redis_client.spop(key)` until it returns `None`.  The
Redis server itself is outside this repository, so its `SPOP` primitive
is modelled from the spec's `takeOne` contract (§4.3): an atomic
remove-one-arbitrary-or-report-empty step.  A concurrent execution of
any number of workers is the arbitrary interleaving of their atomic
steps, i.e. a `SpopRun`. -/

/-- The result a worker sees from one `spop` call. -/
inductive TakeResult where
  | item (x : String) : TakeResult
  | empty : TakeResult
deriving DecidableEq, Repr

/-- Modelled from the spec: `takeOne(key)` "atomically removes and
returns one arbitrary item from the named queue, or signals Empty if
none remain" (Redis `SPOP`; the Redis server is external to the repo). -/
inductive SpopStep : Finset String → TakeResult → Finset String → Prop where
  | take {q : Finset String} {x : String} (hx : x ∈ q) :
      SpopStep q (TakeResult.item x) (q.erase x)
  | empty {q : Finset String} (h : q = ∅) : SpopStep q TakeResult.empty q

/-- A whole run: the sequence of results of the interleaved atomic `spop`
steps of all workers, from the seeded queue to the final queue. -/
inductive SpopRun : Finset String → List TakeResult → Finset String → Prop where
  | nil {q : Finset String} : SpopRun q [] q
  | cons {q q' qf : Finset String} {r : TakeResult} {rs : List TakeResult} :
      SpopStep q r q' → SpopRun q' rs qf → SpopRun q (r :: rs) qf

/-- Shape of any run: some pairwise-distinct items drawn from the queue,
followed by Empty results, which occur only once the queue is drained. -/
theorem spopRun_shape {q : Finset String} {rs : List TakeResult}
    {qf : Finset String} (hrun : SpopRun q rs qf) :
    ∃ (xs : List String) (k : Nat),
      rs = xs.map TakeResult.item ++ List.replicate k TakeResult.empty ∧
      xs.Nodup ∧ (∀ x ∈ xs, x ∈ q) ∧ qf = q \ xs.toFinset ∧
      (0 < k → xs.toFinset = q) := by
  induction hrun with
  | nil => exact ⟨[], 0, by simp, by simp, by simp, by simp, by simp⟩
  | cons hstep hrun ih =>
    obtain ⟨xs, k, hrs, hnd, hmem, hqf, hk⟩ := ih
    cases hstep with
    | take hx =>
      rename_i q qf' rs' x
      refine ⟨x :: xs, k, by simp [hrs], ?_, ?_, ?_, ?_⟩
      · refine List.nodup_cons.mpr ⟨?_, hnd⟩
        intro hxin
        exact absurd (hmem x hxin) (by simp)
      · intro y hy
        rcases List.mem_cons.mp hy with rfl | hy2
        · exact hx
        · exact Finset.mem_of_mem_erase (hmem y hy2)
      · rw [hqf, List.toFinset_cons]
        ext y
        simp only [Finset.mem_sdiff, Finset.mem_erase, Finset.mem_insert]
        tauto
      · intro hkpos
        rw [List.toFinset_cons, hk hkpos, Finset.insert_erase hx]
    | empty hq =>
      have hxs : xs = [] := by
        cases xs with
        | nil => rfl
        | cons y ys => exact absurd (hmem y (by simp)) (by simp [hq])
      subst hxs
      refine ⟨[], k + 1, ?_, by simp, by simp, by simpa using hqf, ?_⟩
      · simp only [hrs]
        simp [List.replicate_succ]
      · intro _
        simp [hq]

/-- C7: for a queue seeded with N distinct items, over every interleaving
of atomic `spop` calls of any number of workers totalling N+1 calls, the
first N calls return the N items, each to exactly one caller with no
item ever delivered twice, and the final (N+1)-st call returns Empty. -/
theorem takeOne_unique_drain {q : Finset String} {rs : List TakeResult}
    {qf : Finset String} (hrun : SpopRun q rs qf)
    (hlen : rs.length = q.card + 1) :
    ∃ xs : List String, xs.Nodup ∧ xs.toFinset = q ∧
      rs = xs.map TakeResult.item ++ [TakeResult.empty] := by
  obtain ⟨xs, k, hrs, hnd, hmem, hqf, hk⟩ := spopRun_shape hrun
  have hcardeq : xs.toFinset.card = xs.length := List.toFinset_card_of_nodup hnd
  have hxs_le : xs.length ≤ q.card := by
    have hsub : xs.toFinset ⊆ q := fun y hy => hmem y (List.mem_toFinset.mp hy)
    calc xs.length = xs.toFinset.card := hcardeq.symm
      _ ≤ q.card := Finset.card_le_card hsub
  have hlen2 : xs.length + k = q.card + 1 := by
    rw [hrs] at hlen
    simpa using hlen
  have hkpos : 0 < k := by omega
  have hfin : xs.toFinset = q := hk hkpos
  have hxlen : xs.length = q.card := by rw [← hfin, hcardeq]
  have hk1 : k = 1 := by omega
  exact ⟨xs, hnd, hfin, by rw [hrs, hk1]; rfl⟩

/-- C7 witness: the concrete two-call run on the one-item queue
`{"a"}` — one successful take, then Empty. -/
theorem takeOne_unique_drain_witness :
    ∃ xs : List String, xs.Nodup ∧ xs.toFinset = ({"a"} : Finset String) ∧
      [TakeResult.item "a", TakeResult.empty] =
        xs.map TakeResult.item ++ [TakeResult.empty] :=
  takeOne_unique_drain
    (SpopRun.cons (SpopStep.take (by simp))
      (SpopRun.cons (SpopStep.empty (by simp)) SpopRun.nil))
    (by simp)

/-! ## C10: `upload_file` titles -/

/-- Python `pathlib.Path(p).name`: the last non-empty slash-separated
component (faithful for paths whose final component is not the special
dot component `"."`, which pathlib drops). -/
def pathName (p : String) : String :=
  String.mk (((splitSlash p.data).filter (fun seg => !seg.isEmpty)).getLastD [])

/-- `upload_file` (client.py lines 113-123): create a remote file whose
`title` is `Path(local_file).name`, under the destination folder, and
upload its bytes.  Returns the created file object and the new Drive. -/
def upload_file (local_file : String) (dst_folder_id : Nat) (s : DriveState) :
    GFile × DriveState :=
  let f : GFile := ⟨s.next, pathName local_file, dst_folder_id, false, false⟩
  (f, ⟨s.files ++ [f], s.next + 1⟩)

/-- Splitting on slashes distributes over concatenation at a slash. -/
theorem splitSlash_append_slash :
    ∀ l1 l2 : List Char, splitSlash (l1 ++ '/' :: l2) = splitSlash l1 ++ splitSlash l2
  | [], l2 => by simp [splitSlash]
  | c :: cs, l2 => by
    by_cases hc : (c == '/') = true
    · show splitSlash (c :: (cs ++ '/' :: l2)) = _
      rw [show splitSlash (c :: (cs ++ '/' :: l2)) =
          [] :: splitSlash (cs ++ '/' :: l2) from by
            rw [show splitSlash (c :: (cs ++ '/' :: l2)) =
              (if (c == '/') = true then [] :: splitSlash (cs ++ '/' :: l2)
               else match splitSlash (cs ++ '/' :: l2) with
                    | [] => [[c]]
                    | seg :: segs => (c :: seg) :: segs) from rfl, if_pos hc],
        splitSlash_append_slash cs l2,
        show splitSlash (c :: cs) = [] :: splitSlash cs from by
          rw [show splitSlash (c :: cs) =
            (if (c == '/') = true then [] :: splitSlash cs
             else match splitSlash cs with
                  | [] => [[c]]
                  | seg :: segs => (c :: seg) :: segs) from rfl, if_pos hc]]
      rfl
    · obtain ⟨seg, segs, heq⟩ := List.exists_cons_of_ne_nil (splitSlash_ne_nil cs)
      have heq2 : splitSlash (cs ++ '/' :: l2) = seg :: (segs ++ splitSlash l2) := by
        rw [splitSlash_append_slash cs l2, heq]
        rfl
      show splitSlash (c :: (cs ++ '/' :: l2)) = _
      rw [splitSlash_cons_ne c _ hc seg (segs ++ splitSlash l2) heq2,
        splitSlash_cons_ne c cs hc seg segs heq]
      rfl

/-- A slash-free list is a single segment. -/
theorem splitSlash_no_slash :
    ∀ l : List Char, '/' ∉ l → splitSlash l = [l]
  | [], _ => rfl
  | c :: cs, h => by
    have hc : ¬(c == '/') = true := by
      simp only [beq_iff_eq]
      intro hcon
      exact h (hcon ▸ List.mem_cons_self c cs)
    exact splitSlash_cons_ne c cs hc cs []
      (splitSlash_no_slash cs (fun hm => h (List.mem_cons_of_mem c hm)))

/-- The basename of `dir ++ "/" ++ fname` is `fname` whenever `fname` is
non-empty and slash-free. -/
theorem pathName_append (d fname : String) (h1 : fname.data ≠ [])
    (h2 : '/' ∉ fname.data) : pathName (d ++ "/" ++ fname) = fname := by
  unfold pathName
  have hslash : ("/" : String).data = ['/'] := rfl
  have hdata : (d ++ "/" ++ fname).data = d.data ++ '/' :: fname.data := by
    rw [String.data_append, String.data_append, List.append_assoc, hslash]
    rfl
  have hne : fname.data.isEmpty = false := by
    cases hd : fname.data with
    | nil => exact absurd hd h1
    | cons a t => rfl
  rw [hdata, splitSlash_append_slash, splitSlash_no_slash fname.data h2,
    List.filter_append]
  have hkeep : [fname.data].filter (fun seg => !seg.isEmpty) = [fname.data] := by
    simp [List.filter, hne]
  rw [hkeep]
  have hlast : ((splitSlash d.data).filter (fun seg => !seg.isEmpty) ++
      [fname.data]).getLastD [] = fname.data := by
    rw [List.getLastD_eq_getLast?, List.getLast?_concat]
    rfl
  rw [hlast]

/-- C10: the remote title of every uploaded item is the final path
component of the local path popped from the queue, so two local paths
differing only in their directory upload under the same remote name in
the same destination folder.  (The hypotheses scope the basename to a
genuine file name: non-empty, slash-free, not pathlib's special dot.) -/
theorem upload_file_title_basename (d1 d2 fname : String) (dst : Nat)
    (s1 s2 : DriveState) (h1 : fname.data ≠ []) (h2 : '/' ∉ fname.data)
    (_h3 : fname ≠ ".") :
    (upload_file (d1 ++ "/" ++ fname) dst s1).1.title = fname ∧
    (upload_file (d2 ++ "/" ++ fname) dst s2).1.title =
      (upload_file (d1 ++ "/" ++ fname) dst s1).1.title ∧
    (upload_file (d1 ++ "/" ++ fname) dst s1).1.parent = dst := by
  refine ⟨pathName_append d1 fname h1 h2, ?_, rfl⟩
  show pathName (d2 ++ "/" ++ fname) = pathName (d1 ++ "/" ++ fname)
  rw [pathName_append d1 fname h1 h2, pathName_append d2 fname h1 h2]

/-- C10 witness: `"a/x.txt"` and `"b/c/x.txt"` both upload as `"x.txt"`. -/
theorem upload_file_title_basename_witness :
    ("x.txt".data ≠ [] ∧ '/' ∉ "x.txt".data ∧ "x.txt" ≠ ".") ∧
    (upload_file ("a" ++ "/" ++ "x.txt") 1 emptyDrive).1.title = "x.txt" ∧
    (upload_file ("b/c" ++ "/" ++ "x.txt") 1 emptyDrive).1.title =
      (upload_file ("a" ++ "/" ++ "x.txt") 1 emptyDrive).1.title ∧
    (upload_file ("a" ++ "/" ++ "x.txt") 1 emptyDrive).1.parent = 1 :=
  ⟨⟨by decide, by decide, by decide⟩,
   upload_file_title_basename "a" "b/c" "x.txt" 1 emptyDrive emptyDrive
     (by decide) (by decide) (by decide)⟩

/-! ## C9: the regex filter of `get_local_files` -/

/-- A Python exception class relevant to the embedded code paths. -/
inductive PyError where
  | typeError : PyError
deriving DecidableEq, Repr

/-- Modelled from CPython: `re.search(pattern, f)` raises
`TypeError: expected string or bytes-like object` when `f` is a
`pathlib.Path` rather than `str`/`bytes`.  client.py line 44 passes the
`Path` objects produced by `Path(d).iterdir()` directly, so this call
site always raises. -/
def re_search_on_path (_re_pattern : String) (_f : String) : Except PyError Bool :=
  Except.error PyError.typeError

/-- The regex list comprehension of `get_local_files` (client.py lines
42-45), evaluated left to right, propagating the first raised error. -/
def filter_re (re_pattern : String) : List String → Except PyError (List String)
  | [] => Except.ok []
  | f :: fs =>
    match re_search_on_path re_pattern f with
    | Except.error e => Except.error e
    | Except.ok b =>
      match filter_re re_pattern fs with
      | Except.error e => Except.error e
      | Except.ok rest => Except.ok (if b then f :: rest else rest)

/-- `get_local_files` (client.py lines 33-49).  The filesystem is an
external collaborator: `iterdir d` is the entry list of directory `d`
(as `Path` objects, modelled by their path strings) and `globFn d g` the
glob matches.  Both filters apply additively, as in the source. -/
def get_local_files (iterdir : String → List String)
    (globFn : String → String → List String) (dirs : List String)
    (glob_pattern re_pattern : Option String) : Except PyError (List String) :=
  let files := if glob_pattern.isNone && re_pattern.isNone
    then (dirs.map iterdir).flatten else []
  let files := match glob_pattern with
    | some g => files ++ (dirs.map (fun d => globFn d g)).flatten
    | none => files
  match re_pattern with
  | some r =>
    match filter_re r ((dirs.map iterdir).flatten) with
    | Except.error e => Except.error e
    | Except.ok matched => Except.ok (files ++ matched)
  | none => Except.ok files

/-- C9: for every non-None regex pattern (with any glob setting), as soon
as some listed directory has at least one entry, `get_local_files`
raises `TypeError` — the regex filter applies `re.search` to a `Path`
object — and thus never returns normally. -/
theorem get_local_files_typeError (iterdir : String → List String)
    (globFn : String → String → List String) (dirs : List String)
    (glob_pattern : Option String) (r : String)
    (h : ∃ d ∈ dirs, iterdir d ≠ []) :
    get_local_files iterdir globFn dirs glob_pattern (some r) =
      Except.error PyError.typeError := by
  have hflat : (dirs.map iterdir).flatten ≠ [] := by
    intro hj
    obtain ⟨d, hd, hne⟩ := h
    exact hne (List.flatten_eq_nil_iff.mp hj (iterdir d) (List.mem_map_of_mem _ hd))
  obtain ⟨f, fs, hcons⟩ := List.exists_cons_of_ne_nil hflat
  unfold get_local_files
  rw [hcons]
  simp [filter_re, re_search_on_path]

/-- C9 witness: one directory with one entry and a concrete pattern. -/
theorem get_local_files_typeError_witness :
    (∃ d ∈ ["d"], (fun _ : String => ["d/a.txt"]) d ≠ []) ∧
    get_local_files (fun _ => ["d/a.txt"]) (fun _ _ => []) ["d"] none (some "p") =
      Except.error PyError.typeError :=
  ⟨⟨"d", by simp, by simp⟩,
   get_local_files_typeError _ _ _ _ _ ⟨"d", by simp, by simp⟩⟩

/-! ## C2: seeding the queue (`cache_upload_files`) -/

/-- Modelled from CPython/pydrive: `==` between a `pathlib.Path` (a local
candidate) and a `GoogleDriveFile` metadata object (an element of the
`ListFile` result) is always `False` — they are unrelated types, so
neither side's `__eq__` ever reports equality. -/
def pyEq_path_gfile (_local_file : String) (_remote : GFile) : Bool := false

/-- The seeding loop `for file in local_files: redis_client.sadd(key, str(file))`
(client.py lines 160-161): insert every path into the Redis set. -/
def sadd_all (queue : Finset String) (files : List String) : Finset String :=
  files.foldl (fun q f => insert f q) queue

/-- `cache_upload_files` (client.py lines 145-162): unless
`overwrite_existing`, resolve the destination folder, list its current
children, drop the local candidates equal (by Python `==`) to some
listed child — `set(local_files).difference(existing_files)` — and
`sadd` the survivors into the queue. -/
def cache_upload_files (local_files : List String) (dst_dir : String)
    (overwrite_existing : Bool) (s : DriveState) (queue : Finset String) :
    Option (DriveState × Finset String) :=
  if !overwrite_existing then
    match get_folder_id dst_dir s with
    | none => none
    | some (dst_folder_id, s1) =>
      let existing_files := ListFile s1 dst_folder_id
      let remaining := local_files.filter
        (fun f => !(existing_files.any (fun g => pyEq_path_gfile f g)))
      some (s1, sadd_all queue remaining)
  else
    some (s, sadd_all queue local_files)

/-- C2, code-bug evidence: local candidates `x.txt`, `y.txt` against a
destination folder (id 1) that already contains a remote file titled
`x.txt`, with `overwrite_existing = False`: the set difference between
`Path` objects and `GoogleDriveFile` objects removes nothing, so BOTH
`x.txt` and `y.txt` are enqueued, where the claim expects only `y.txt`. -/
theorem cache_upload_files_no_dedup_cex :
    match cache_upload_files ["x.txt", "y.txt"] "dst" false
        ⟨[⟨1, "dst", 0, false, true⟩, ⟨2, "x.txt", 1, false, false⟩], 3⟩ ∅ with
    | some (s1, q) =>
        s1 = ⟨[⟨1, "dst", 0, false, true⟩, ⟨2, "x.txt", 1, false, false⟩], 3⟩ ∧
        "x.txt" ∈ q ∧ "y.txt" ∈ q
    | none => False :=
  ⟨rfl, by decide, by decide⟩

/-! ## C3: listing failures during resolution -/

/-- The outcome the HTTP layer delivers for one `ListFile` call: success,
or a `googleapiclient.errors.HttpError` carrying the extracted
`error.message` (client.py line 86). -/
inductive HttpOutcome where
  | ok : HttpOutcome
  | errHttp (message : String) : HttpOutcome
deriving DecidableEq, Repr

/-- How a `get_folder_id` call can end when listing calls may fail:
normally (`done`), with Python `None` (empty segment list), with the
`ValueError` of client.py line 88, or with the `UnboundLocalError` that
line 94 raises when `file_list` was never assigned. -/
inductive ResolveOutcome where
  | done (folder_id : Nat) (s : DriveState) : ResolveOutcome
  | pyNone : ResolveOutcome
  | valueError (msg : String) : ResolveOutcome
  | unboundLocalError : ResolveOutcome
deriving DecidableEq, Repr

/-- Python `message.lower()` (ASCII suffices for the checked needle). -/
def lowerChars (l : List Char) : List Char := l.map Char.toLower

/-- Bool-valued prefix test on character lists. -/
def isPrefixL : List Char → List Char → Bool
  | [], _ => true
  | _ :: _, [] => false
  | a :: as, b :: bs => a == b && isPrefixL as bs

/-- Python's `needle in hay` substring test. -/
def containsSub (needle : List Char) : List Char → Bool
  | [] => isPrefixL needle []
  | h :: t => isPrefixL needle (h :: t) || containsSub needle t

/-- `search_file_tree` with the HTTP layer made explicit: `sched` lists
the outcome of each successive `ListFile` call (exhausted = `ok`).  On
an `HttpError` whose lowercased message contains `"file not found"`,
line 88 raises the `ValueError` naming the current segment; on any other
`HttpError` the handler only logs, control reaches the
`for file in file_list` loop of line 94 with `file_list` unbound, and
Python raises `UnboundLocalError`. -/
def search_file_tree_http (dst_folder_name : String) :
    List String → Nat → DriveState → List HttpOutcome → ResolveOutcome
  | [], _, _, _ => ResolveOutcome.pyNone
  | folder_name :: rest, parent_folder_id, s, sched =>
    match sched.headD HttpOutcome.ok with
    | HttpOutcome.errHttp message =>
      if containsSub "file not found".data (lowerChars message.data) then
        ResolveOutcome.valueError
          ("Folder " ++ folder_name ++ " was not found on Google Drive: " ++ message)
      else
        ResolveOutcome.unboundLocalError
    | HttpOutcome.ok =>
      match (ListFile s parent_folder_id).find? (fun f => f.title == folder_name) with
      | some f =>
        if folder_name == dst_folder_name then ResolveOutcome.done f.id s
        else search_file_tree_http dst_folder_name rest f.id s sched.tail
      | none =>
        let r := create_gdrive_folder folder_name parent_folder_id s
        if folder_name == dst_folder_name then ResolveOutcome.done r.1 r.2
        else search_file_tree_http dst_folder_name rest r.1 r.2 sched.tail

/-- `get_folder_id` under the explicit HTTP layer. -/
def get_folder_id_http (folder_path : String) (s : DriveState)
    (sched : List HttpOutcome) : ResolveOutcome :=
  let segs := parsePath folder_path
  search_file_tree_http (segs.getLastD "") segs rootId s sched

/-- C3 evidence: a "not found" listing failure does raise the ValueError
naming the current segment (first conjunct, the claim's first half), but
ANY other listing failure ends in `UnboundLocalError` — `file_list` is
never assigned when `ListFile` raises — instead of continuing with an
empty child list as the claim's second half states (second conjunct). -/
theorem get_folder_id_http_error_behaviour :
    get_folder_id_http "A" emptyDrive [HttpOutcome.errHttp "File not found: xyz"] =
      ResolveOutcome.valueError
        "Folder A was not found on Google Drive: File not found: xyz" ∧
    get_folder_id_http "A" emptyDrive [HttpOutcome.errHttp "Rate Limit Exceeded"] =
      ResolveOutcome.unboundLocalError := by decide

end GDriveUploader
